import Mathlib

/-!
Shallow embedding of the corellm repository (src/corellm/client.py and
src/corellm/gui.py) and proofs about its conversation-memory state machine
and streaming protocol.

Two complementary views of the same Python code are used:

* a pure-state view (`LLMState`, namespace `LLM`) for `chat` and
  `chat_stream`, where in-place appends to `self.memory` are modelled as
  functional updates of the `memory` field; and

* a heap view (`Heap`, `PyLLM`, namespace `PyLLM`) for `get_memory`,
  `prompt`, `prompt_stream` and `modify_system_prompt`, where Python list
  objects live in a heap of cells addressed by natural-number references.
  This view is needed because `get_memory` returns `self.memory` itself
  (the very list object, not a copy), and `prompt`/`prompt_stream` call
  `self.memory.copy()`: object identity and copying are observable there.

The inference backend (`llama_cpp.Llama.create_chat_completion`) is opaque:
blocking calls take it as a function from the message list to the response
text (or an `Except` for the failing case), streaming calls as a function
from the message list to the list of chunks the backend stream delivers.

Python generators run no code before the first `next()` call; the
generator models below therefore represent a freshly created stream as a
`notStarted` state and perform the effects of the body inside the step
function, exactly where the source performs them.
-/

/-- One message dictionary of the source: a role string and a content
string, as in the Python dict with keys "role" and "content". -/
structure Turn where
  role : String
  content : String
deriving DecidableEq, Repr

/-- Pure view of the Python attributes of an `LLM` object: `self.system_prompt`
and `self.memory` (client.py lines 37-39). -/
structure LLMState where
  system_prompt : String
  memory : List Turn
deriving DecidableEq, Repr

/-- `LLM.__init__`: stores the system prompt and sets
`self.memory = [system turn]` (client.py lines 21-39); model loading is
external and not modelled. -/
def LLM.init (system_prompt : String) : LLMState :=
  { system_prompt := system_prompt
    memory := [{ role := "system", content := system_prompt }] }

/-- `LLM.chat` (client.py lines 41-61): append the user turn to memory,
call the backend on the whole memory, append the assistant turn, return
the message.  The backend may fail (`Except`); the user turn appended
before the call stays in memory on the error path, because the in-place
`self.memory.append` has already happened when the exception propagates. -/
def LLM.chat (backend : List Turn → Except ε String) (s : LLMState)
    (prompt : String) : Except ε String × LLMState :=
  let mem1 := s.memory ++ [{ role := "user", content := prompt }]
  match backend mem1 with
  | Except.error e => (Except.error e, { s with memory := mem1 })
  | Except.ok message =>
      (Except.ok message,
       { s with memory := mem1 ++ [{ role := "assistant", content := message }] })

/-- `LLM.set_memory` (client.py lines 202-217): `self.memory = memory`. -/
def LLM.set_memory (s : LLMState) (memory : List Turn) : LLMState :=
  { s with memory := memory }

/-- `LLM.clear_memory` (client.py lines 195-200): reset memory to the
single system turn built from the stored `self.system_prompt`. -/
def LLM.clear_memory (s : LLMState) : LLMState :=
  { s with memory := [{ role := "system", content := s.system_prompt }] }

/-- The `delta` dictionary of one streamed chunk: `content` may be absent
(role-only deltas / heartbeats). -/
structure Delta where
  content : Option String
deriving DecidableEq, Repr

/-- Per-chunk extraction in `chat_stream` (client.py lines 115-116):
`token = chunk["choices"][0]["delta"].get("content", "")`. -/
def deltaToken (d : Delta) : String := d.content.getD ""

/-- The first choice of one streamed chunk as `prompt_stream` reads it
(client.py line 174): the `delta` dictionary itself may be absent. -/
structure Chunk where
  delta : Option Delta
deriving DecidableEq, Repr

/-- Per-chunk extraction in `prompt_stream` (client.py lines 174-175):
`delta = chunk["choices"][0].get("delta", {})` followed by
`token = delta.get("content", "")`. -/
def chunkToken (c : Chunk) : String :=
  match c.delta with
  | none => ""
  | some d => d.content.getD ""

/-- Runs the generator loop `for chunk in stream` from the current
position up to (and including) the next `yield`: chunks whose extracted
token is `""` are skipped (`if token:`), the first non-empty token is
yielded together with the not-yet-consumed rest of the stream; `none`
means the stream ended with no further non-empty token. -/
def nextYield (tok : α → String) : List α → Option (String × List α)
  | [] => none
  | c :: rest =>
      let t := tok c
      if t = "" then nextYield tok rest else some (t, rest)

/-- The sequence of tokens a generator loop yields from a chunk list:
the token extracted from each chunk, with empty tokens filtered out. -/
def yieldedTokens (tok : α → String) (cs : List α) : List String :=
  (cs.map tok).filter (fun t => t ≠ "")

/-- The tokens `chat_stream` yields for a backend delta list. -/
def cTokens (ds : List Delta) : List String := yieldedTokens deltaToken ds

/-- The tokens `prompt_stream` yields for a backend chunk list. -/
def pTokens (cs : List Chunk) : List String := yieldedTokens chunkToken cs

/-- `full_message` accumulation (client.py line 119): left fold of string
concatenation, starting from the empty string. -/
def concatAll (l : List String) : String := l.foldl (fun a b => a ++ b) ""

/-- Resumption state of one `chat_stream` generator (`_generator`,
client.py lines 107-126): `notStarted` is the generator object before the
first `next()`; `running sent remaining full` is the generator suspended
at a `yield`, where `sent` records the message list that was passed to
`create_chat_completion`, `remaining` the chunks not yet consumed and
`full` the accumulated `full_message`; `done` is the finished generator. -/
inductive CGen where
  | notStarted
  | running (sent : List Turn) (remaining : List Delta) (full : String)
  | done
deriving DecidableEq, Repr

/-- `LLM.chat_stream` with `print_stream=False` (client.py lines 128-137):
the call only creates the generator object and returns it; no line of the
generator body runs, so the session state is untouched at creation time. -/
def LLM.chat_stream (s : LLMState) (prompt : String) : LLMState × CGen :=
  (s, CGen.notStarted)

/-- One `next()` call on a `chat_stream` generator.  On the first call the
body starts: it appends the user turn to memory (client.py line 108),
passes the memory to the backend (line 110) and runs the loop to the first
yield.  On later calls the loop resumes.  When the backend stream is
exhausted the generator appends the assistant turn holding the
accumulated `full_message` (line 126) and stops. -/
def cgenStep (backend : List Turn → List Delta) (prompt : String)
    (s : LLMState) : CGen → Option String × LLMState × CGen
  | CGen.notStarted =>
      let mem1 := s.memory ++ [{ role := "user", content := prompt }]
      let s1 := { s with memory := mem1 }
      match nextYield deltaToken (backend mem1) with
      | some (t, rest) => (some t, s1, CGen.running mem1 rest t)
      | none =>
          (none,
           { s1 with memory := mem1 ++ [{ role := "assistant", content := "" }] },
           CGen.done)
  | CGen.running sent rem full =>
      match nextYield deltaToken rem with
      | some (t, rest) => (some t, s, CGen.running sent rest (full ++ t))
      | none =>
          (none,
           { s with memory := s.memory ++ [{ role := "assistant", content := full }] },
           CGen.done)
  | CGen.done => (none, s, CGen.done)

/-- A consumer making up to `k` `next()` calls on a `chat_stream`
generator, stopping early at `StopIteration` (as a `for` loop does):
returns the yielded fragments in order, the session state and the
generator state afterwards. -/
def cgenConsume (backend : List Turn → List Delta) (prompt : String) :
    Nat → LLMState → CGen → List String × LLMState × CGen
  | 0, s, g => ([], s, g)
  | k + 1, s, g =>
      match cgenStep backend prompt s g with
      | (some t, s1, g1) =>
          let r := cgenConsume backend prompt k s1 g1
          (t :: r.1, r.2)
      | (none, s1, g1) => ([], s1, g1)

/-! ### Heap view: Python list objects as heap cells -/

/-- A heap of Python list-of-dict objects; a reference is an index. -/
abbrev Heap := List (List Turn)

/-- Dereference: the list object a reference points to. -/
def Heap.read (h : Heap) (r : Nat) : List Turn := h.getD r []

/-- Python `lst.append(t)` performed on the object `r` points to: an
in-place mutation visible through every alias of that object. -/
def Heap.appendAt (h : Heap) (r : Nat) (t : Turn) : Heap :=
  h.set r (h.read r ++ [t])

/-- Heap view of an `LLM` object: `self.memory` is a reference to a list
object in the heap, `self.system_prompt` a separately stored string. -/
structure PyLLM where
  memRef : Nat
  system_prompt : String
deriving DecidableEq, Repr

/-- `LLM.get_memory` (client.py lines 219-234): `return self.memory` —
the returned value is the reference to the list object owned by the store, not a
copy of it. -/
def PyLLM.get_memory (s : PyLLM) : Nat := s.memRef

/-- `LLM.modify_system_prompt` (client.py lines 236-243):
`self.memory[0] = system turn` — an in-place element replacement on the
memory list object; the stored `self.system_prompt` string is not
touched. -/
def PyLLM.modify_system_prompt (h : Heap) (s : PyLLM) (system_prompt : String) :
    Heap :=
  h.set s.memRef
    ((h.read s.memRef).set 0 { role := "system", content := system_prompt })

/-- The `temp_memory` construction shared verbatim by `prompt`
(client.py lines 75-82) and the generator of `prompt_stream` (lines 161-168):
with `use_memory` it is `self.memory.copy()` plus the appended user turn —
a fresh list object, allocated here at the end of the heap; without it,
a fresh two-element list built from the stored `self.system_prompt`.
Returns the new heap and the reference to the fresh object. -/
def buildTemp (h : Heap) (s : PyLLM) (prompt : String) (use_memory : Bool) :
    Heap × Nat :=
  if use_memory then
    let r := h.length
    let h1 := h ++ [h.read s.memRef]
    (h1.appendAt r { role := "user", content := prompt }, r)
  else
    (h ++ [[{ role := "system", content := s.system_prompt },
            { role := "user", content := prompt }]], h.length)

/-- `LLM.prompt` (client.py lines 63-88): build `temp_memory`, call the
backend on it, return the extracted message; `self.memory` is never
assigned or mutated. -/
def PyLLM.prompt (backend : List Turn → String) (h : Heap) (s : PyLLM)
    (prompt : String) (use_memory : Bool) : String × Heap :=
  let b := buildTemp h s prompt use_memory
  (backend (b.1.read b.2), b.1)

/-- Resumption state of one `prompt_stream` generator (`_generator`,
client.py lines 159-183): as for `CGen`, but the generator keeps no
accumulator and never writes to memory; `sent` records the message list
passed to the backend. -/
inductive PGen where
  | notStarted
  | running (sent : List Turn) (remaining : List Chunk)
  | done
deriving DecidableEq, Repr

/-- `LLM.prompt_stream` with `print_stream=False` (client.py lines
184-193): creates and returns the generator object; nothing in the body
runs, so the heap is untouched at creation time. -/
def PyLLM.prompt_stream (h : Heap) (s : PyLLM) (prompt : String)
    (use_memory : Bool) : Heap × PGen :=
  (h, PGen.notStarted)

/-- One `next()` call on a `prompt_stream` generator: the first call
builds `temp_memory` from the current heap, opens the backend stream on
it and runs the loop to the first yield; later calls resume the loop;
exhaustion just ends the generator (no memory write anywhere). -/
def pgenStep (backend : List Turn → List Chunk) (prompt : String)
    (use_memory : Bool) (s : PyLLM) (h : Heap) :
    PGen → Option String × Heap × PGen
  | PGen.notStarted =>
      let b := buildTemp h s prompt use_memory
      let temp := b.1.read b.2
      match nextYield chunkToken (backend temp) with
      | some (t, rest) => (some t, b.1, PGen.running temp rest)
      | none => (none, b.1, PGen.done)
  | PGen.running sent rem =>
      match nextYield chunkToken rem with
      | some (t, rest) => (some t, h, PGen.running sent rest)
      | none => (none, h, PGen.done)
  | PGen.done => (none, h, PGen.done)

/-- A consumer making up to `k` `next()` calls on a `prompt_stream`
generator, stopping early at `StopIteration`. -/
def pgenConsume (backend : List Turn → List Chunk) (prompt : String)
    (use_memory : Bool) (s : PyLLM) :
    Nat → Heap → PGen → List String × Heap × PGen
  | 0, h, g => ([], h, g)
  | k + 1, h, g =>
      match pgenStep backend prompt use_memory s h g with
      | (some t, h1, g1) =>
          let r := pgenConsume backend prompt use_memory s k h1 g1
          (t :: r.1, r.2)
      | (none, h1, g1) => ([], h1, g1)

/-! ### Presentation adapter (gui.py) -/

/-- The loop body of `_memory_to_chatbot` (gui.py lines 5-17), with the
`current_user` variable made an explicit parameter: a user turn overwrites
`current_user`; an assistant turn emits a pair and clears `current_user`
when one is pending, and is dropped otherwise; every other role leaves
`current_user` alone. -/
def mtcGo (current_user : Option String) : List Turn → List (String × String)
  | [] => []
  | msg :: rest =>
      if msg.role = "user" then mtcGo (some msg.content) rest
      else if msg.role = "assistant" then
        match current_user with
        | some u => (u, msg.content) :: mtcGo none rest
        | none => mtcGo none rest
      else mtcGo current_user rest

/-- `_memory_to_chatbot` (gui.py lines 5-17): convert a turn history into
the ordered (user, assistant) display pairs. -/
def memoryToChatbot (history : List Turn) : List (String × String) :=
  mtcGo none history

/-- Modelled from the words of claim C9 (not from the source), for comparison
with `memoryToChatbot`: pair each assistant turn with the most recent
preceding user turn that is still unpaired, keeping a stack of all
unpaired user turns (most recent first). -/
def claimPairsGo (unpaired : List String) : List Turn → List (String × String)
  | [] => []
  | msg :: rest =>
      if msg.role = "user" then claimPairsGo (msg.content :: unpaired) rest
      else if msg.role = "assistant" then
        match unpaired with
        | u :: us => (u, msg.content) :: claimPairsGo us rest
        | [] => claimPairsGo [] rest
      else claimPairsGo unpaired rest

/-- The claim-literal pairing over a whole history. -/
def claimPairs (history : List Turn) : List (String × String) :=
  claimPairsGo [] history

/-- Spec-side declarative pairing, for the amended claim: drop every turn
that is neither a user nor an assistant turn, then pair each assistant
turn with the immediately preceding turn when that turn is a user turn. -/
def adjGo (prev : Option Turn) : List Turn → List (String × String)
  | [] => []
  | t :: rest =>
      if t.role = "assistant" then
        match prev with
        | some u =>
            if u.role = "user" then (u.content, t.content) :: adjGo (some t) rest
            else adjGo (some t) rest
        | none => adjGo (some t) rest
      else adjGo (some t) rest

/-- A turn the display conversion does not drop outright. -/
def isCore (t : Turn) : Bool := t.role = "user" || t.role = "assistant"

/-- The amended display conversion: remove system (and any other
non-user/assistant) turns, then pair adjacent (user, assistant) turns. -/
def specDisplayPairs (history : List Turn) : List (String × String) :=
  adjGo none (history.filter isCore)

/-! ### Helper lemmas -/

theorem yieldedTokens_nil (tok : α → String) : yieldedTokens tok [] = [] := rfl

theorem yieldedTokens_cons (tok : α → String) (c : α) (cs : List α) :
    yieldedTokens tok (c :: cs) =
      if tok c = "" then yieldedTokens tok cs
      else tok c :: yieldedTokens tok cs := by
  simp only [yieldedTokens, List.map_cons, List.filter_cons]
  by_cases h : tok c = "" <;> simp [h]

theorem nextYield_none_iff (tok : α → String) (cs : List α) :
    nextYield tok cs = none ↔ yieldedTokens tok cs = [] := by
  induction cs with
  | nil => simp [nextYield, yieldedTokens]
  | cons c rest ih =>
      rw [nextYield, yieldedTokens_cons]
      by_cases h : tok c = "" <;> simp [h, ih]

theorem nextYield_some (tok : α → String) (cs : List α) (t : String)
    (rest : List α) (h : nextYield tok cs = some (t, rest)) :
    yieldedTokens tok cs = t :: yieldedTokens tok rest := by
  induction cs with
  | nil => simp [nextYield] at h
  | cons c cs' ih =>
      rw [nextYield] at h
      rw [yieldedTokens_cons]
      by_cases hc : tok c = ""
      · simp only [hc, if_true] at h ⊢
        exact ih h
      · simp only [hc, if_false] at h ⊢
        obtain ⟨h1, h2⟩ := Prod.mk.injEq .. ▸ Option.some.injEq .. ▸ h
        subst h1; subst h2; rfl

theorem concatAll_nil : concatAll [] = "" := rfl

theorem foldl_append_init (l : List String) (a b : String) :
    l.foldl (fun x y => x ++ y) (a ++ b) = a ++ l.foldl (fun x y => x ++ y) b := by
  induction l generalizing b with
  | nil => rfl
  | cons c l' ih =>
      simp only [List.foldl_cons]
      rw [String.append_assoc, ih]

theorem concatAll_cons (t : String) (l : List String) :
    concatAll (t :: l) = t ++ concatAll l := by
  have h := foldl_append_init l t ""
  simpa [concatAll] using h

/-- Consuming `k` pulls from a running `chat_stream` generator when at
least `k` tokens remain: the session state is untouched and the first `k`
remaining tokens are yielded. -/
theorem cgenConsume_running_le (backend : List Turn → List Delta)
    (prompt : String) (k : Nat) :
    ∀ (ds : List Delta) (s : LLMState) (sent : List Turn) (full : String),
      k ≤ (cTokens ds).length →
      ∃ ds' full',
        cgenConsume backend prompt k s (CGen.running sent ds full) =
          ((cTokens ds).take k, s, CGen.running sent ds' full') := by
  induction k with
  | zero =>
      intro ds s sent full _
      exact ⟨ds, full, rfl⟩
  | succ k ih =>
      intro ds s sent full hk
      cases hn : nextYield deltaToken ds with
      | none =>
          rw [nextYield_none_iff] at hn
          rw [cTokens, hn] at hk
          simp at hk
      | some pr =>
          obtain ⟨t, rest⟩ := pr
          have htoks : cTokens ds = t :: cTokens rest := nextYield_some _ _ _ _ hn
          have hk' : k ≤ (cTokens rest).length := by
            rw [htoks] at hk; simpa using hk
          obtain ⟨ds', full', hih⟩ := ih rest s sent (full ++ t) hk'
          refine ⟨ds', full', ?_⟩
          rw [cgenConsume]
          simp only [cgenStep, hn]
          rw [hih, htoks]
          rfl

/-- Consuming more pulls than tokens remain from a running `chat_stream`
generator: every remaining token is yielded, the generator finishes, and
exactly one assistant turn holding `full_message` is appended. -/
theorem cgenConsume_running_gt (backend : List Turn → List Delta)
    (prompt : String) (k : Nat) :
    ∀ (ds : List Delta) (s : LLMState) (sent : List Turn) (full : String),
      (cTokens ds).length + 1 ≤ k →
      cgenConsume backend prompt k s (CGen.running sent ds full) =
        (cTokens ds,
         { s with memory := s.memory ++
             [{ role := "assistant", content := full ++ concatAll (cTokens ds) }] },
         CGen.done) := by
  induction k with
  | zero =>
      intro ds s sent full hk
      simp at hk
  | succ k ih =>
      intro ds s sent full hk
      cases hn : nextYield deltaToken ds with
      | none =>
          have htoks : cTokens ds = [] := (nextYield_none_iff _ _).mp hn
          rw [cgenConsume]
          simp only [cgenStep, hn]
          rw [htoks, concatAll_nil]
          simp
      | some pr =>
          obtain ⟨t, rest⟩ := pr
          have htoks : cTokens ds = t :: cTokens rest := nextYield_some _ _ _ _ hn
          have hk' : (cTokens rest).length + 1 ≤ k := by
            rw [htoks] at hk; simpa using hk
          rw [cgenConsume]
          simp only [cgenStep, hn]
          rw [ih rest s sent (full ++ t) hk', htoks]
          rw [concatAll_cons, String.append_assoc]

/-! ### Heap lemmas -/

theorem Heap.read_append_left (h : Heap) (l : List (List Turn)) (r : Nat)
    (hr : r < h.length) : Heap.read (h ++ l) r = Heap.read h r := by
  simp only [Heap.read, List.getD_eq_getElem?_getD]
  rw [List.getElem?_append_left hr]

theorem Heap.read_set_ne (h : Heap) (r i : Nat) (x : List Turn)
    (hne : r ≠ i) : Heap.read (h.set r x) i = Heap.read h i := by
  simp only [Heap.read, List.getD_eq_getElem?_getD]
  rw [List.getElem?_set_ne hne]

theorem Heap.read_appendAt_ne (h : Heap) (r i : Nat) (t : Turn)
    (hne : r ≠ i) : Heap.read (h.appendAt r t) i = Heap.read h i :=
  Heap.read_set_ne _ _ _ _ hne

/-- `buildTemp` allocates only fresh cells: every valid pre-existing cell
is unchanged, and the heap does not shrink. -/
theorem buildTemp_preserves (h : Heap) (s : PyLLM) (p : String)
    (use_memory : Bool) (i : Nat) (hi : i < h.length) :
    Heap.read (buildTemp h s p use_memory).1 i = Heap.read h i ∧
      h.length ≤ (buildTemp h s p use_memory).1.length := by
  unfold buildTemp
  cases use_memory with
  | false =>
      simp only [Bool.false_eq_true, if_false]
      refine ⟨Heap.read_append_left h _ i hi, ?_⟩
      simp
  | true =>
      simp only [if_true]
      constructor
      · rw [Heap.read_appendAt_ne _ _ _ _ (by omega)]
        exact Heap.read_append_left h _ i hi
      · simp [Heap.appendAt]

/-- The `temp_memory` object `buildTemp` returns: the current memory
contents plus the user turn (with `use_memory`), or the two-turn list
built from the stored prompt field (without). -/
theorem buildTemp_read (h : Heap) (s : PyLLM) (p : String) :
    (Heap.read (buildTemp h s p true).1 (buildTemp h s p true).2 =
       Heap.read h s.memRef ++ [{ role := "user", content := p }]) ∧
    (Heap.read (buildTemp h s p false).1 (buildTemp h s p false).2 =
       [{ role := "system", content := s.system_prompt },
        { role := "user", content := p }]) := by
  constructor
  · simp only [buildTemp, if_true]
    have hlen : h.length < (h ++ [Heap.read h s.memRef]).length := by simp
    have h0 : Heap.read (h ++ [Heap.read h s.memRef]) h.length =
        Heap.read h s.memRef := by
      simp [Heap.read, List.getD_eq_getElem?_getD]
    simp only [Heap.appendAt, h0]
    simp [Heap.read, List.getD_eq_getElem?_getD, List.getElem?_set_self hlen]
  · simp only [buildTemp, Bool.false_eq_true, if_false]
    simp [Heap.read, List.getD_eq_getElem?_getD]

/-- A `prompt_stream` generator step never changes any valid pre-existing
heap cell, and the heap does not shrink. -/
theorem pgenStep_preserves (backend : List Turn → List Chunk) (p : String)
    (use_memory : Bool) (s : PyLLM) (h : Heap) (g : PGen) (i : Nat)
    (hi : i < h.length) :
    Heap.read (pgenStep backend p use_memory s h g).2.1 i = Heap.read h i ∧
      h.length ≤ (pgenStep backend p use_memory s h g).2.1.length := by
  cases g with
  | notStarted =>
      obtain ⟨h1, h2⟩ := buildTemp_preserves h s p use_memory i hi
      simp only [pgenStep]
      cases hn : nextYield chunkToken
          (backend (Heap.read (buildTemp h s p use_memory).1
            (buildTemp h s p use_memory).2)) with
      | none => exact ⟨h1, h2⟩
      | some pr => obtain ⟨t, rest⟩ := pr; exact ⟨h1, h2⟩
  | running sent rem =>
      simp only [pgenStep]
      cases hn : nextYield chunkToken rem with
      | none => exact ⟨rfl, Nat.le_refl _⟩
      | some pr => obtain ⟨t, rest⟩ := pr; exact ⟨rfl, Nat.le_refl _⟩
  | done => exact ⟨rfl, Nat.le_refl _⟩

/-- Consuming any number of pulls from a `prompt_stream` generator never
changes any valid pre-existing heap cell. -/
theorem pgenConsume_preserves (backend : List Turn → List Chunk) (p : String)
    (use_memory : Bool) (s : PyLLM) (k : Nat) :
    ∀ (h : Heap) (g : PGen) (i : Nat), i < h.length →
      Heap.read (pgenConsume backend p use_memory s k h g).2.1 i =
          Heap.read h i ∧
        h.length ≤ (pgenConsume backend p use_memory s k h g).2.1.length := by
  induction k with
  | zero => intro h g i _; exact ⟨rfl, Nat.le_refl _⟩
  | succ k ih =>
      intro h g i hi
      obtain ⟨hstep, hlen⟩ := pgenStep_preserves backend p use_memory s h g i hi
      rw [pgenConsume]
      cases hstep' : pgenStep backend p use_memory s h g with
      | mk o rest =>
          obtain ⟨h1, g1⟩ := rest
          rw [hstep'] at hstep hlen
          simp only at hstep hlen
          cases o with
          | none => exact ⟨hstep, hlen⟩
          | some t =>
              obtain ⟨ih1, ih2⟩ := ih h1 g1 i (Nat.lt_of_lt_of_le hi hlen)
              simp only
              exact ⟨ih1.trans hstep, Nat.le_trans hlen ih2⟩

/-! ### Display-pairing lemmas -/

theorem mtcGo_cons_user (cu : Option String) (t : Turn) (rest : List Turn)
    (h : t.role = "user") : mtcGo cu (t :: rest) = mtcGo (some t.content) rest := by
  conv_lhs => rw [mtcGo.eq_def]
  simp only [if_pos h]

theorem mtcGo_cons_assistant (cu : Option String) (t : Turn) (rest : List Turn)
    (h : t.role = "assistant") :
    mtcGo cu (t :: rest) =
      match cu with
      | some u => (u, t.content) :: mtcGo none rest
      | none => mtcGo none rest := by
  conv_lhs => rw [mtcGo.eq_def]
  simp only [if_neg (show ¬ t.role = "user" by rw [h]; decide), if_pos h]

theorem mtcGo_cons_other (cu : Option String) (t : Turn) (rest : List Turn)
    (hu : ¬ t.role = "user") (ha : ¬ t.role = "assistant") :
    mtcGo cu (t :: rest) = mtcGo cu rest := by
  conv_lhs => rw [mtcGo.eq_def]
  simp only [if_neg hu, if_neg ha]

theorem adjGo_cons_assistant (prev : Option Turn) (t : Turn) (rest : List Turn)
    (h : t.role = "assistant") :
    adjGo prev (t :: rest) =
      match prev with
      | some u =>
          if u.role = "user" then (u.content, t.content) :: adjGo (some t) rest
          else adjGo (some t) rest
      | none => adjGo (some t) rest := by
  conv_lhs => rw [adjGo.eq_def]
  simp only [if_pos h]

theorem adjGo_cons_nonassistant (prev : Option Turn) (t : Turn) (rest : List Turn)
    (h : ¬ t.role = "assistant") :
    adjGo prev (t :: rest) = adjGo (some t) rest := by
  conv_lhs => rw [adjGo.eq_def]
  simp only [if_neg h]

/-- Turns that are neither user nor assistant turns change nothing in the
conversion loop, so the loop factors through the core filter. -/
theorem mtcGo_filter (h : List Turn) :
    ∀ cu, mtcGo cu h = mtcGo cu (h.filter isCore) := by
  induction h with
  | nil => intro cu; rfl
  | cons t rest ih =>
      intro cu
      by_cases hu : t.role = "user"
      · have hc : isCore t = true := by simp [isCore, hu]
        rw [List.filter_cons_of_pos hc]
        rw [mtcGo_cons_user cu t rest hu, mtcGo_cons_user cu t _ hu]
        exact ih _
      · by_cases ha : t.role = "assistant"
        · have hc : isCore t = true := by simp [isCore, ha]
          rw [List.filter_cons_of_pos hc]
          rw [mtcGo_cons_assistant cu t rest ha, mtcGo_cons_assistant cu t _ ha]
          cases cu with
          | none => exact ih _
          | some u => rw [ih none]
        · have hc : isCore t = false := by simp [isCore, hu, ha]
          rw [List.filter_cons_of_neg (by simp [hc])]
          rw [mtcGo_cons_other cu t rest hu ha]
          exact ih cu

/-- On a history of user/assistant turns only, the source loop with its
single pending-user slot agrees with the adjacent-pair reading: a pending
user content `u.content` behaves exactly like a preceding user turn `u`,
and no pending user behaves exactly like a preceding assistant turn (or
no preceding turn at all). -/
theorem mtcGo_adjGo (h : List Turn) (hcore : ∀ t ∈ h, isCore t = true) :
    (∀ u : Turn, u.role = "user" → mtcGo (some u.content) h = adjGo (some u) h) ∧
      (mtcGo none h = adjGo none h) ∧
      (∀ a : Turn, a.role = "assistant" → mtcGo none h = adjGo (some a) h) := by
  induction h with
  | nil => exact ⟨fun _ _ => rfl, rfl, fun _ _ => rfl⟩
  | cons t rest ih =>
      have hcore' : ∀ x ∈ rest, isCore x = true := fun x hx =>
        hcore x (List.mem_cons_of_mem t hx)
      obtain ⟨ih1, ih2, ih3⟩ := ih hcore'
      have htc := hcore t (List.mem_cons_self t rest)
      simp only [isCore, Bool.or_eq_true, decide_eq_true_eq] at htc
      by_cases hu : t.role = "user"
      · have hna : ¬ t.role = "assistant" := by rw [hu]; decide
        have hgo : mtcGo (some t.content) rest = adjGo (some t) rest := ih1 t hu
        refine ⟨fun u _ => ?_, ?_, fun a _ => ?_⟩
        · rw [mtcGo_cons_user _ t rest hu, adjGo_cons_nonassistant _ t rest hna, hgo]
        · rw [mtcGo_cons_user _ t rest hu, adjGo_cons_nonassistant _ t rest hna, hgo]
        · rw [mtcGo_cons_user _ t rest hu, adjGo_cons_nonassistant _ t rest hna, hgo]
      · have ha : t.role = "assistant" := htc.resolve_left hu
        have hgo : mtcGo none rest = adjGo (some t) rest := ih3 t ha
        refine ⟨fun u hur => ?_, ?_, fun a har => ?_⟩
        · rw [mtcGo_cons_assistant _ t rest ha, adjGo_cons_assistant _ t rest ha]
          simp only [if_pos hur]
          rw [hgo]
        · rw [mtcGo_cons_assistant _ t rest ha, adjGo_cons_assistant _ t rest ha]
          rw [hgo]
        · rw [mtcGo_cons_assistant _ t rest ha, adjGo_cons_assistant _ t rest ha]
          have : ¬ a.role = "user" := by rw [har]; decide
          simp only [if_neg this]
          rw [hgo]

/-! ### Consumption characterizations from stream creation -/

/-- Exhaustive consumption of a `chat_stream` generator: with more pulls
than tokens, every token is yielded and the generator appends the user
turn (first pull) and one assistant turn holding the concatenation of all
yielded tokens (final pull). -/
theorem cgenConsume_notStarted_gt (backend : List Turn → List Delta)
    (s : LLMState) (p : String) (k : Nat)
    (hk : (cTokens (backend (s.memory ++ [⟨"user", p⟩]))).length + 1 ≤ k) :
    cgenConsume backend p k s CGen.notStarted =
      (cTokens (backend (s.memory ++ [⟨"user", p⟩])),
       { s with memory := s.memory ++ [⟨"user", p⟩] ++
           [⟨"assistant",
             concatAll (cTokens (backend (s.memory ++ [⟨"user", p⟩])))⟩] },
       CGen.done) := by
  obtain ⟨k', rfl⟩ : ∃ k', k = k' + 1 := by
    cases k with
    | zero => simp at hk
    | succ k' => exact ⟨k', rfl⟩
  cases hn : nextYield deltaToken (backend (s.memory ++ [⟨"user", p⟩])) with
  | none =>
      have htoks := (nextYield_none_iff deltaToken _).mp hn
      rw [cgenConsume]
      simp only [cgenStep, hn]
      rw [cTokens, htoks, concatAll_nil]
  | some pr =>
      obtain ⟨t, rest⟩ := pr
      have htoks : cTokens (backend (s.memory ++ [⟨"user", p⟩])) =
          t :: cTokens rest := nextYield_some _ _ _ _ hn
      have hk' : (cTokens rest).length + 1 ≤ k' := by
        rw [htoks] at hk; simpa using hk
      rw [cgenConsume]
      simp only [cgenStep, hn]
      rw [cgenConsume_running_gt backend p k' rest _ _ t hk', htoks,
          concatAll_cons]

/-- Interrupted consumption of a `chat_stream` generator: with `k` pulls,
`1 ≤ k ≤` the token count, the first `k` tokens are yielded, the user
turn is in memory, and no assistant turn is: the generator is still
suspended at a yield. -/
theorem cgenConsume_notStarted_le (backend : List Turn → List Delta)
    (s : LLMState) (p : String) (k : Nat) (hk1 : 1 ≤ k)
    (hk2 : k ≤ (cTokens (backend (s.memory ++ [⟨"user", p⟩]))).length) :
    ∃ ds' full',
      cgenConsume backend p k s CGen.notStarted =
        ((cTokens (backend (s.memory ++ [⟨"user", p⟩]))).take k,
         { s with memory := s.memory ++ [⟨"user", p⟩] },
         CGen.running (s.memory ++ [⟨"user", p⟩]) ds' full') := by
  obtain ⟨k', rfl⟩ : ∃ k', k = k' + 1 := by
    cases k with
    | zero => simp at hk1
    | succ k' => exact ⟨k', rfl⟩
  cases hn : nextYield deltaToken (backend (s.memory ++ [⟨"user", p⟩])) with
  | none =>
      have htoks := (nextYield_none_iff deltaToken _).mp hn
      rw [cTokens, htoks] at hk2
      simp at hk2
  | some pr =>
      obtain ⟨t, rest⟩ := pr
      have htoks : cTokens (backend (s.memory ++ [⟨"user", p⟩])) =
          t :: cTokens rest := nextYield_some _ _ _ _ hn
      have hk2' : k' ≤ (cTokens rest).length := by
        rw [htoks] at hk2; simpa using hk2
      obtain ⟨ds', full', hrun⟩ := cgenConsume_running_le backend p k' rest
        { s with memory := s.memory ++ [⟨"user", p⟩] }
        (s.memory ++ [⟨"user", p⟩]) t hk2'
      refine ⟨ds', full', ?_⟩
      rw [cgenConsume]
      simp only [cgenStep, hn]
      rw [hrun, htoks]
      rfl

/-- Consuming more pulls than tokens remain from a running
`prompt_stream` generator: every remaining token is yielded, the heap is
untouched, the generator finishes. -/
theorem pgenConsume_running_gt (backend : List Turn → List Chunk)
    (p : String) (use_memory : Bool) (s : PyLLM) (k : Nat) :
    ∀ (cs : List Chunk) (h : Heap) (sent : List Turn),
      (pTokens cs).length + 1 ≤ k →
      pgenConsume backend p use_memory s k h (PGen.running sent cs) =
        (pTokens cs, h, PGen.done) := by
  induction k with
  | zero => intro cs h sent hk; simp at hk
  | succ k ih =>
      intro cs h sent hk
      cases hn : nextYield chunkToken cs with
      | none =>
          have htoks := (nextYield_none_iff chunkToken _).mp hn
          rw [pgenConsume]
          simp only [pgenStep, hn]
          rw [pTokens, htoks]
      | some pr =>
          obtain ⟨t, rest⟩ := pr
          have htoks : pTokens cs = t :: pTokens rest :=
            nextYield_some _ _ _ _ hn
          have hk' : (pTokens rest).length + 1 ≤ k := by
            rw [htoks] at hk; simpa using hk
          rw [pgenConsume]
          simp only [pgenStep, hn]
          rw [ih rest h sent hk', htoks]

/-- Exhaustive consumption of a `prompt_stream` generator: the tokens of
the backend stream opened on the first-pull `temp_memory` are yielded,
each once, in order; the only heap change is the `temp_memory`
allocation itself. -/
theorem pgenConsume_notStarted_gt (backend : List Turn → List Chunk)
    (p : String) (use_memory : Bool) (s : PyLLM) (k : Nat) (h : Heap)
    (hk : (pTokens (backend (Heap.read (buildTemp h s p use_memory).1
        (buildTemp h s p use_memory).2))).length + 1 ≤ k) :
    pgenConsume backend p use_memory s k h PGen.notStarted =
      (pTokens (backend (Heap.read (buildTemp h s p use_memory).1
         (buildTemp h s p use_memory).2)),
       (buildTemp h s p use_memory).1, PGen.done) := by
  obtain ⟨k', rfl⟩ : ∃ k', k = k' + 1 := by
    cases k with
    | zero => simp at hk
    | succ k' => exact ⟨k', rfl⟩
  cases hn : nextYield chunkToken (backend (Heap.read
      (buildTemp h s p use_memory).1 (buildTemp h s p use_memory).2)) with
  | none =>
      have htoks := (nextYield_none_iff chunkToken _).mp hn
      rw [pgenConsume]
      simp only [pgenStep, hn]
      rw [pTokens, htoks]
  | some pr =>
      obtain ⟨t, rest⟩ := pr
      have htoks : pTokens (backend (Heap.read (buildTemp h s p use_memory).1
          (buildTemp h s p use_memory).2)) = t :: pTokens rest :=
        nextYield_some _ _ _ _ hn
      have hk' : (pTokens rest).length + 1 ≤ k' := by
        rw [htoks] at hk; simpa using hk
      rw [pgenConsume]
      simp only [pgenStep, hn]
      rw [pgenConsume_running_gt backend p use_memory s k' rest _ _ hk', htoks]

/-! ### Claim theorems -/

/-- C4: on a freshly constructed session with system prompt `S`,
`chat("hi")` returns the response text of the backend for the message list
`[{system,S},{user,"hi"}]`, and afterwards memory is
`[{system,S},{user,"hi"},{assistant,R}]`. -/
theorem c4_chat_fresh (S : String) (f : List Turn → String) :
    LLM.chat (fun msgs => (Except.ok (f msgs) : Except Unit String))
        (LLM.init S) "hi" =
      (Except.ok (f [⟨"system", S⟩, ⟨"user", "hi"⟩]),
       { system_prompt := S,
         memory := [⟨"system", S⟩, ⟨"user", "hi"⟩,
                    ⟨"assistant", f [⟨"system", S⟩, ⟨"user", "hi"⟩]⟩] }) := rfl

/-- C6: if the backend raises during `chat(p)`, the error propagates to
the caller unmodified and memory afterwards is the pre-call memory plus
the already-appended `{user,p}` turn, with no assistant turn and no
rollback. -/
theorem c6_chat_backend_error (backend : List Turn → Except ε String)
    (s : LLMState) (p : String) (e : ε)
    (herr : backend (s.memory ++ [⟨"user", p⟩]) = Except.error e) :
    LLM.chat backend s p =
      (Except.error e, { s with memory := s.memory ++ [⟨"user", p⟩] }) := by
  simp only [LLM.chat]
  rw [herr]

/-- Witness for C6 at a concrete failing backend. -/
theorem c6_chat_backend_error_witness :
    LLM.chat (fun _ => Except.error "boom") (LLM.init "S") "hi" =
      (Except.error "boom",
       { system_prompt := "S",
         memory := [⟨"system", "S"⟩, ⟨"user", "hi"⟩] }) :=
  c6_chat_backend_error (fun _ => Except.error "boom") (LLM.init "S") "hi"
    "boom" rfl

/-- C2 counterexample: `get_memory` does not return a copy.  On the
session whose store holds `[{system,S}]`, appending a turn to the list
`get_memory` returned changes what the store itself holds, so a
subsequent `get_memory` no longer shows the original turn sequence. -/
theorem c2_get_memory_counterexample :
    Heap.read
        (Heap.appendAt [[⟨"system", "S"⟩]]
          (PyLLM.get_memory { memRef := 0, system_prompt := "S" })
          ⟨"user", "x"⟩)
        (PyLLM.get_memory { memRef := 0, system_prompt := "S" }) =
      [⟨"system", "S"⟩, ⟨"user", "x"⟩] ∧
    ([⟨"system", "S"⟩, ⟨"user", "x"⟩] : List Turn) ≠ [⟨"system", "S"⟩] := by
  refine ⟨rfl, by decide⟩

/-- C2 amended: `get_memory()` returns the list object owned by the store (an
alias), not a copy: a mutation the caller performs through the returned
sequence is a mutation of the store, and a subsequent `get_memory()`
returns the mutated turn sequence. -/
theorem c2_get_memory_amended (h : Heap) (s : PyLLM) (t : Turn)
    (hr : s.memRef < h.length) :
    PyLLM.get_memory s = s.memRef ∧
    Heap.read (Heap.appendAt h (PyLLM.get_memory s) t)
        (PyLLM.get_memory s) =
      Heap.read h s.memRef ++ [t] := by
  refine ⟨rfl, ?_⟩
  simp [Heap.appendAt, PyLLM.get_memory, Heap.read,
        List.getD_eq_getElem?_getD, List.getElem?_set_self hr]

/-- Witness for the amended C2 at a concrete store. -/
theorem c2_get_memory_amended_witness :
    Heap.read
        (Heap.appendAt [[⟨"system", "S"⟩]]
          (PyLLM.get_memory { memRef := 0, system_prompt := "S" })
          ⟨"user", "x"⟩)
        (PyLLM.get_memory { memRef := 0, system_prompt := "S" }) =
      [⟨"system", "S"⟩] ++ [⟨"user", "x"⟩] :=
  (c2_get_memory_amended [[⟨"system", "S"⟩]]
    { memRef := 0, system_prompt := "S" } ⟨"user", "x"⟩ (by decide)).2

/-- C5: neither `prompt` (for either value of `use_memory`, any backend
response) nor `prompt_stream` (any consumption depth `k`) ever mutates
the conversation store: the list object `self.memory` refers to holds the
same turns afterwards as before. -/
theorem c5_prompt_frame (backend : List Turn → String)
    (backend2 : List Turn → List Chunk) (h : Heap) (s : PyLLM)
    (p : String) (use_memory : Bool) (k : Nat)
    (hr : s.memRef < h.length) :
    Heap.read (PyLLM.prompt backend h s p use_memory).2 s.memRef =
        Heap.read h s.memRef ∧
      Heap.read (pgenConsume backend2 p use_memory s k h PGen.notStarted).2.1
          s.memRef =
        Heap.read h s.memRef := by
  constructor
  · exact (buildTemp_preserves h s p use_memory s.memRef hr).1
  · exact (pgenConsume_preserves backend2 p use_memory s k h PGen.notStarted
      s.memRef hr).1

/-- Witness for C5 at a concrete store, backend and consumption depth. -/
theorem c5_prompt_frame_witness :
    Heap.read
        (PyLLM.prompt (fun _ => "R") [[⟨"system", "S"⟩]]
          { memRef := 0, system_prompt := "S" } "q" true).2 0 =
      [⟨"system", "S"⟩] ∧
    Heap.read
        (pgenConsume (fun _ => [⟨some ⟨some "R"⟩⟩]) "q" false
          { memRef := 0, system_prompt := "S" } 5 [[⟨"system", "S"⟩]]
          PGen.notStarted).2.1 0 =
      [⟨"system", "S"⟩] :=
  c5_prompt_frame (fun _ => "R") (fun _ => [⟨some ⟨some "R"⟩⟩])
    [[⟨"system", "S"⟩]] { memRef := 0, system_prompt := "S" } "q" true 5
    (by decide)

/-- C1: consuming a `chat_stream(p)` sequence to exhaustion appends
exactly one assistant turn whose content is the concatenation of all
yielded fragments; stopping before exhaustion appends no assistant turn —
memory stays as it was just after the user turn was appended (and a
consumer that never pulls leaves memory fully unchanged, since the user
turn itself is only appended at the first pull). -/
theorem c1_chat_stream_commit (backend : List Turn → List Delta)
    (s : LLMState) (p : String) (k : Nat) :
    (k = 0 → cgenConsume backend p k s CGen.notStarted =
        ([], s, CGen.notStarted)) ∧
    (1 ≤ k → k ≤ (cTokens (backend (s.memory ++ [⟨"user", p⟩]))).length →
       (cgenConsume backend p k s CGen.notStarted).1 =
           (cTokens (backend (s.memory ++ [⟨"user", p⟩]))).take k ∧
         (cgenConsume backend p k s CGen.notStarted).2.1.memory =
           s.memory ++ [⟨"user", p⟩]) ∧
    ((cTokens (backend (s.memory ++ [⟨"user", p⟩]))).length + 1 ≤ k →
       (cgenConsume backend p k s CGen.notStarted).1 =
           cTokens (backend (s.memory ++ [⟨"user", p⟩])) ∧
         (cgenConsume backend p k s CGen.notStarted).2.1.memory =
           s.memory ++ [⟨"user", p⟩] ++
             [⟨"assistant",
               concatAll (cgenConsume backend p k s CGen.notStarted).1⟩]) := by
  refine ⟨?_, ?_, ?_⟩
  · intro hk; subst hk; rfl
  · intro hk1 hk2
    obtain ⟨ds', full', hrun⟩ :=
      cgenConsume_notStarted_le backend s p k hk1 hk2
    rw [hrun]
    exact ⟨rfl, rfl⟩
  · intro hk
    rw [cgenConsume_notStarted_gt backend s p k hk]
    exact ⟨rfl, rfl⟩

/-- Witness for C1: a backend delivering fragments `He`, `` (empty) and
`llo`; three pulls exhaust the stream (two yields plus the final
`StopIteration`), and the assistant turn `Hello` is committed; two pulls
yield both fragments but commit nothing. -/
theorem c1_chat_stream_commit_witness :
    ((cgenConsume (fun _ => [⟨some "He"⟩, ⟨some ""⟩, ⟨some "llo"⟩]) "hi" 3
        (LLM.init "S") CGen.notStarted).1 = ["He", "llo"] ∧
      (cgenConsume (fun _ => [⟨some "He"⟩, ⟨some ""⟩, ⟨some "llo"⟩]) "hi" 3
          (LLM.init "S") CGen.notStarted).2.1.memory =
        [⟨"system", "S"⟩, ⟨"user", "hi"⟩, ⟨"assistant", "Hello"⟩]) ∧
    ((cgenConsume (fun _ => [⟨some "He"⟩, ⟨some ""⟩, ⟨some "llo"⟩]) "hi" 2
        (LLM.init "S") CGen.notStarted).1 = ["He", "llo"] ∧
      (cgenConsume (fun _ => [⟨some "He"⟩, ⟨some ""⟩, ⟨some "llo"⟩]) "hi" 2
          (LLM.init "S") CGen.notStarted).2.1.memory =
        [⟨"system", "S"⟩, ⟨"user", "hi"⟩]) := by
  constructor
  · have h3 := (c1_chat_stream_commit
      (fun _ => [⟨some "He"⟩, ⟨some ""⟩, ⟨some "llo"⟩]) (LLM.init "S") "hi"
      3).2.2 (by decide)
    refine ⟨h3.1, ?_⟩
    rw [h3.2, h3.1]
    rfl
  · have h2 := (c1_chat_stream_commit
      (fun _ => [⟨some "He"⟩, ⟨some ""⟩, ⟨some "llo"⟩]) (LLM.init "S") "hi"
      2).2.1 (by decide) (by decide)
    exact ⟨h2.1, h2.2⟩

/-- C7: `modify_system_prompt(t)` immediately replaces element 0 of the
memory the session exposes through `get_memory` with `{system,t}`,
leaves every other memory element unchanged, and does not touch the
separately stored `system_prompt` field — so a subsequent
`prompt(m, use_memory=False)` still builds its backend message list from
the previously stored prompt text, not from `t`. -/
theorem c7_modify_system_prompt (h : Heap) (s : PyLLM) (t m : String)
    (backend : List Turn → String)
    (hr : s.memRef < h.length) (hne : Heap.read h s.memRef ≠ []) :
    (Heap.read (PyLLM.modify_system_prompt h s t)
        (PyLLM.get_memory s)).head? = some ⟨"system", t⟩ ∧
    (Heap.read (PyLLM.modify_system_prompt h s t)
        (PyLLM.get_memory s)).tail = (Heap.read h s.memRef).tail ∧
    (PyLLM.prompt backend (PyLLM.modify_system_prompt h s t) s m false).1 =
      backend [⟨"system", s.system_prompt⟩, ⟨"user", m⟩] := by
  have hread : Heap.read (PyLLM.modify_system_prompt h s t)
      (PyLLM.get_memory s) =
      (Heap.read h s.memRef).set 0 ⟨"system", t⟩ := by
    simp [PyLLM.modify_system_prompt, PyLLM.get_memory, Heap.read,
          List.getD_eq_getElem?_getD, List.getElem?_set_self hr]
  refine ⟨?_, ?_, ?_⟩
  · rw [hread]
    cases hmem : Heap.read h s.memRef with
    | nil => exact absurd hmem hne
    | cons a rest => rfl
  · rw [hread]
    cases hmem : Heap.read h s.memRef with
    | nil => exact absurd hmem hne
    | cons a rest => rfl
  · simp only [PyLLM.prompt]
    rw [(buildTemp_read (PyLLM.modify_system_prompt h s t) s m).2]

/-- Witness for C7: after `modify_system_prompt("New")` the exposed
memory starts with the new system turn, but a no-memory `prompt` call
whose backend echoes the content of the first message still sees the
originally stored prompt text `S`. -/
theorem c7_modify_system_prompt_witness :
    (Heap.read
        (PyLLM.modify_system_prompt [[⟨"system", "S"⟩]]
          { memRef := 0, system_prompt := "S" } "New")
        (PyLLM.get_memory { memRef := 0, system_prompt := "S" })).head? =
      some ⟨"system", "New"⟩ ∧
    (PyLLM.prompt (fun msgs => (msgs.headD ⟨"", ""⟩).content)
        (PyLLM.modify_system_prompt [[⟨"system", "S"⟩]]
          { memRef := 0, system_prompt := "S" } "New")
        { memRef := 0, system_prompt := "S" } "q" false).1 = "S" := by
  have hc := c7_modify_system_prompt [[⟨"system", "S"⟩]]
    { memRef := 0, system_prompt := "S" } "New" "q"
    (fun msgs => (msgs.headD ⟨"", ""⟩).content) (by decide) (by decide)
  exact ⟨hc.1, hc.2.2⟩

/-- C3 counterexample: nothing is appended at stream-creation time, and
the message list is not built then either.  On a fresh session with
system prompt `S`, the state `chat_stream` returns still lacks the user
turn; and with a backend that echoes the content of the first message, setting
memory to `[{system,X}]` between creation and the first pull makes the
stream yield `X` — the messages sent to the backend reflect the
post-creation mutation, contradicting the claim. -/
theorem c3_creation_time_counterexample :
    (LLM.chat_stream (LLM.init "S") "hi").1.memory = [⟨"system", "S"⟩] ∧
    ([⟨"system", "S"⟩] : List Turn) ≠
      [⟨"system", "S"⟩, ⟨"user", "hi"⟩] ∧
    (cgenStep (fun msgs => [⟨some (msgs.headD ⟨"", ""⟩).content⟩]) "hi"
        (LLM.set_memory (LLM.chat_stream (LLM.init "S") "hi").1
          [⟨"system", "X"⟩])
        (LLM.chat_stream (LLM.init "S") "hi").2).1 = some "X" ∧
    (some "X" : Option String) ≠ some "S" := by
  refine ⟨rfl, by decide, rfl, by decide⟩

/-- C3 amended: the user turn is appended and the backend message list is
built at first-pull time, not at stream creation.  Creating the stream
returns the session state and the heap untouched; the first pull appends
the user turn and passes the memory as it is at that moment (recorded in
the `sent` messages of the generator), so memory mutations between creation
and first pull do affect the messages the stream sends.  The same
first-pull build applies to `prompt_stream`. -/
theorem c3_first_pull_build (backend : List Turn → List Delta)
    (backend2 : List Turn → List Chunk) (s : LLMState) (p : String)
    (t : String) (rest : List Delta) (h : Heap) (py : PyLLM)
    (use_memory : Bool) (c : String) (crest : List Chunk)
    (h1 : nextYield deltaToken (backend (s.memory ++ [⟨"user", p⟩])) =
      some (t, rest))
    (h2 : nextYield chunkToken
        (backend2 (Heap.read (buildTemp h py p use_memory).1
          (buildTemp h py p use_memory).2)) = some (c, crest)) :
    LLM.chat_stream s p = (s, CGen.notStarted) ∧
    cgenStep backend p s CGen.notStarted =
      (some t, { s with memory := s.memory ++ [⟨"user", p⟩] },
       CGen.running (s.memory ++ [⟨"user", p⟩]) rest t) ∧
    PyLLM.prompt_stream h py p use_memory = (h, PGen.notStarted) ∧
    pgenStep backend2 p use_memory py h PGen.notStarted =
      (some c, (buildTemp h py p use_memory).1,
       PGen.running
         (Heap.read (buildTemp h py p use_memory).1
           (buildTemp h py p use_memory).2) crest) := by
  refine ⟨rfl, ?_, rfl, ?_⟩
  · simp only [cgenStep, h1]
  · simp only [pgenStep, h2]

/-- Witness for the amended C3 at concrete backends and states. -/
theorem c3_first_pull_build_witness :
    cgenStep (fun _ => [⟨some "T"⟩]) "hi" (LLM.init "S") CGen.notStarted =
      (some "T", { system_prompt := "S",
                   memory := [⟨"system", "S"⟩, ⟨"user", "hi"⟩] },
       CGen.running [⟨"system", "S"⟩, ⟨"user", "hi"⟩] [] "T") ∧
    pgenStep (fun _ => [⟨some ⟨some "C"⟩⟩]) "hi" true
        { memRef := 0, system_prompt := "S" } [[⟨"system", "S"⟩]]
        PGen.notStarted =
      (some "C", [[⟨"system", "S"⟩], [⟨"system", "S"⟩, ⟨"user", "hi"⟩]],
       PGen.running [⟨"system", "S"⟩, ⟨"user", "hi"⟩] []) := by
  have hc := c3_first_pull_build (fun _ => [⟨some "T"⟩])
    (fun _ => [⟨some ⟨some "C"⟩⟩]) (LLM.init "S") "hi" "T" []
    [[⟨"system", "S"⟩]] { memRef := 0, system_prompt := "S" } true "C" []
    rfl rfl
  exact ⟨hc.2.1, hc.2.2.2⟩

/-- C8: a streaming call (either mode) yields exactly the non-empty
fragments the backend delivers, each once, in delivery order, with empty
fragments filtered; in particular backend fragments `He`, `` and `llo`
yield exactly `He` then `llo`. -/
theorem c8_stream_yield_filter (backend : List Turn → List Delta)
    (backend2 : List Turn → List Chunk) (s : LLMState) (p : String)
    (h : Heap) (py : PyLLM) (use_memory : Bool) :
    (cgenConsume backend p
        ((cTokens (backend (s.memory ++ [⟨"user", p⟩]))).length + 1) s
        CGen.notStarted).1 =
      (((backend (s.memory ++ [⟨"user", p⟩])).map deltaToken).filter
        (fun t => t ≠ "")) ∧
    (pgenConsume backend2 p use_memory py
        ((pTokens (backend2 (Heap.read (buildTemp h py p use_memory).1
          (buildTemp h py p use_memory).2))).length + 1) h
        PGen.notStarted).1 =
      (((backend2 (Heap.read (buildTemp h py p use_memory).1
          (buildTemp h py p use_memory).2)).map chunkToken).filter
        (fun t => t ≠ "")) ∧
    cTokens [⟨some "He"⟩, ⟨some ""⟩, ⟨some "llo"⟩] = ["He", "llo"] := by
  refine ⟨?_, ?_, by decide⟩
  · rw [cgenConsume_notStarted_gt backend s p _ (Nat.le_refl _)]
    rfl
  · rw [pgenConsume_notStarted_gt backend2 p use_memory py _ h (Nat.le_refl _)]
    rfl

/-- C9 counterexample: on the history
`[user a, user b, assistant r1, assistant r2]` the source conversion
yields only `(b, r1)`, while pairing each assistant turn with the most
recent preceding unpaired user turn (the rule of the claim, kept as a stack of
unpaired user turns) would also pair `(a, r2)`: the second user turn
overwrites the first, which is forgotten rather than kept unpaired. -/
theorem c9_display_pairs_counterexample :
    memoryToChatbot
        [⟨"user", "a"⟩, ⟨"user", "b"⟩, ⟨"assistant", "r1"⟩,
         ⟨"assistant", "r2"⟩] = [("b", "r1")] ∧
    claimPairs
        [⟨"user", "a"⟩, ⟨"user", "b"⟩, ⟨"assistant", "r1"⟩,
         ⟨"assistant", "r2"⟩] = [("b", "r1"), ("a", "r2")] ∧
    ([("b", "r1")] : List (String × String)) ≠ [("b", "r1"), ("a", "r2")] := by
  refine ⟨rfl, rfl, by decide⟩

/-- C9 amended: the conversion returns, in order, one (user, assistant)
pair for each assistant turn whose most recent preceding non-system turn
is a user turn (equivalently: drop system turns, then pair each assistant
turn with the immediately preceding user turn).  All other turns are
dropped: system turns, user turns overridden by a later user turn or
followed by no directly-answering assistant turn (in particular a
trailing unanswered user turn), and assistant turns with no such user. -/
theorem c9_display_pairs_amended (history : List Turn) :
    memoryToChatbot history = specDisplayPairs history := by
  rw [memoryToChatbot, specDisplayPairs, mtcGo_filter]
  exact (mtcGo_adjGo (history.filter isCore)
    (fun t ht => (List.mem_filter.mp ht).2)).2.1

/-- C10: `prompt_stream` is total over malformed backend chunks: a chunk
whose first choice has no `delta` field, or whose `delta` has no
`content` field, extracts as the empty fragment, is skipped without
yielding, and iteration continues with the next chunk — the yielded
sequence equals that of the same stream without the malformed chunk. -/
theorem c10_prompt_stream_malformed (pre post : List Chunk) (h : Heap)
    (py : PyLLM) (p : String) (use_memory : Bool) :
    chunkToken ⟨none⟩ = "" ∧
    chunkToken ⟨some ⟨none⟩⟩ = "" ∧
    pTokens (pre ++ ⟨none⟩ :: post) = pTokens (pre ++ post) ∧
    pTokens (pre ++ ⟨some ⟨none⟩⟩ :: post) = pTokens (pre ++ post) ∧
    (pgenConsume (fun _ => pre ++ ⟨none⟩ :: post) p use_memory py
        ((pTokens (pre ++ ⟨none⟩ :: post)).length + 1) h
        PGen.notStarted).1 =
      (pgenConsume (fun _ => pre ++ post) p use_memory py
        ((pTokens (pre ++ post)).length + 1) h PGen.notStarted).1 := by
  have hbad1 : pTokens (pre ++ ⟨none⟩ :: post) = pTokens (pre ++ post) := by
    simp [pTokens, yieldedTokens, chunkToken]
  have hbad2 : pTokens (pre ++ ⟨some ⟨none⟩⟩ :: post) =
      pTokens (pre ++ post) := by
    simp [pTokens, yieldedTokens, chunkToken]
  refine ⟨rfl, rfl, hbad1, hbad2, ?_⟩
  rw [pgenConsume_notStarted_gt (fun _ => pre ++ ⟨none⟩ :: post) p
        use_memory py _ h (by rw [hbad1]),
      pgenConsume_notStarted_gt (fun _ => pre ++ post) p use_memory py _ h
        (Nat.le_refl _)]
  exact hbad1
